import Mathlib

set_option maxRecDepth 8000
set_option maxHeartbeats 1000000

/-!
Verification development for the RAG pipeline repository.
Texts are embedded as `List Char`; Python strings are mapped to
character lists, machine floats (relevance scores) to rationals.
-/

/-- Python-style whitespace test: the six ASCII whitespace characters
recognised by str.split and str.strip. -/
def isSpace (c : Char) : Bool :=
  c.toNat = 32 || c.toNat = 9 || c.toNat = 10 || c.toNat = 13 || c.toNat = 11 || c.toNat = 12

/-- ASCII fragment of Python str.lower, applied characterwise: the
letters A to Z (codes 65 to 90) are shifted to a to z. -/
def pyToLower (c : Char) : Char :=
  if 65 ≤ c.toNat ∧ c.toNat ≤ 90 then Char.ofNat (c.toNat + 32) else c

/-- Python str.strip: remove leading and trailing whitespace. -/
def strip (l : List Char) : List Char :=
  ((l.dropWhile isSpace).reverse.dropWhile isSpace).reverse

/-- Helper for Python str.split with no argument: accumulate the current
word (reversed) while scanning; whitespace runs separate words. -/
def splitWsAux : List Char → List Char → List (List Char)
  | acc, [] => if acc.isEmpty then [] else [acc.reverse]
  | acc, c :: cs =>
    if isSpace c then
      if acc.isEmpty then splitWsAux [] cs
      else acc.reverse :: splitWsAux [] cs
    else splitWsAux (c :: acc) cs

/-- Python str.split with no argument: split on whitespace runs,
dropping empty pieces. -/
def splitWs (l : List Char) : List (List Char) := splitWsAux [] l

/-- Python substring containment (the `in` operator on strings). -/
def containsSub (pat : List Char) : List Char → Bool
  | [] => pat.isPrefixOf []
  | c :: cs => pat.isPrefixOf (c :: cs) || containsSub pat cs

/-- Last n elements of a list (Python slice l[-n:], whole list when
the list has fewer than n elements). -/
def lastN {α : Type*} (n : Nat) (l : List α) : List α := l.drop (l.length - n)

/-- Modelled from the spec: target chunk size of the Chunker
(RecursiveCharacterTextSplitter chunk_size = 1200 in chunk_text;
the splitter itself is library code that is not under src/). -/
def chunk_size : Nat := 1200

/-- Modelled from the spec: declared overlap of the Chunker
(RecursiveCharacterTextSplitter chunk_overlap = 150 in chunk_text). -/
def chunk_overlap : Nat := 150

/-- Modelled from the spec: the separator hierarchy of the Chunker,
paragraph break, line break, space, then character-level fallback. -/
def separators : List (List Char) :=
  [("\n\n".toList), ("\n".toList), (" ".toList), ("".toList)]

/-- Modelled from the spec: split a text at every occurrence of the
(nonempty) separator c0 :: sep, keeping the separator attached to the
end of the preceding piece, so that the pieces concatenate back to the
input. acc holds the current piece reversed. -/
def splitOnSepAux (c0 : Char) (sep : List Char) : List Char → List Char → List (List Char)
  | acc, [] => [acc.reverse]
  | acc, c :: cs =>
    if (c0 :: sep).isPrefixOf (c :: cs) then
      (acc.reverse ++ c0 :: sep) :: splitOnSepAux c0 sep [] (cs.drop sep.length)
    else
      splitOnSepAux c0 sep (c :: acc) cs
termination_by _acc l => l.length
decreasing_by
  · simp only [List.length_drop, List.length_cons]
    omega
  · simp only [List.length_cons]
    omega

/-- Modelled from the spec: character-level fallback of the Chunker,
cutting a text into consecutive pieces of n + 1 characters. -/
def chunksOfSize (n : Nat) : List Char → List (List Char)
  | [] => []
  | c :: cs => (c :: cs.take n) :: chunksOfSize n (cs.drop n)
termination_by l => l.length
decreasing_by
  simp only [List.length_drop, List.length_cons]
  omega

/-- Modelled from the spec: recursive separator-based splitting of the
Chunker. A piece within the target size is kept; a longer piece is
split on the first separator of the hierarchy and the resulting pieces
are re-split with the remaining separators; the empty separator (or an
exhausted hierarchy) is the character-level fallback. -/
def splitPiece : List (List Char) → List Char → List (List Char)
  | [], s =>
    if s.length ≤ chunk_size then [s] else chunksOfSize (chunk_size - 1) s
  | [] :: _rest, s =>
    if s.length ≤ chunk_size then [s] else chunksOfSize (chunk_size - 1) s
  | (c0 :: sep) :: rest, s =>
    if s.length ≤ chunk_size then [s]
    else (splitOnSepAux c0 sep [] s).flatMap (splitPiece rest)

/-- Modelled from the spec: stitching of adjacent chunks, copying
chunk_overlap characters of trailing context from the end of the
previous chunk onto the start of the next. prev is the previous chunk
already stitched. -/
def stitchAux (prev : List Char) : List (List Char) → List (List Char)
  | [] => []
  | p :: ps =>
    (lastN chunk_overlap prev ++ p) :: stitchAux (lastN chunk_overlap prev ++ p) ps

/-- Modelled from the spec: apply overlap stitching to a piece list;
the first chunk is the first piece unchanged. -/
def stitch : List (List Char) → List (List Char)
  | [] => []
  | p :: ps => p :: stitchAux p ps

/-- Modelled from the spec: chunk_text of scripts/ingest.py. Empty
input yields an empty sequence; otherwise the text is split with the
separator hierarchy and adjacent chunks are stitched with the declared
overlap. The real splitter is library code not under src/. -/
def chunk_text (text : List Char) : List (List Char) :=
  if text.isEmpty then [] else stitch (splitPiece separators text)

/-- Claim-side inverse for C1: remove from each chunk after the first
the overlap it received from the previous chunk (the declared
chunk_overlap, capped by the length of the previous chunk). -/
def removeOverlapsAux (prev : List Char) : List (List Char) → List (List Char)
  | [] => []
  | c :: cs => c.drop (min chunk_overlap prev.length) :: removeOverlapsAux c cs

/-- Claim-side inverse for C1: drop the received overlap from every
chunk after the first. -/
def removeOverlaps : List (List Char) → List (List Char)
  | [] => []
  | c :: cs => c :: removeOverlapsAux c cs

/-- Truncation to a 32-bit word; machine words are Nats reduced mod 2^32. -/
def w32 (n : Nat) : Nat := n % 4294967296

/-- 32-bit modular addition. -/
def add32 (a b : Nat) : Nat := w32 (a + b)

/-- 32-bit right rotation of a word. -/
def rotr32 (n x : Nat) : Nat := w32 ((x >>> n) ||| (x <<< (32 - n)))

/-- SHA-256 choice function. -/
def shaCh (x y z : Nat) : Nat := (x &&& y) ^^^ ((x ^^^ 4294967295) &&& z)

/-- SHA-256 majority function. -/
def shaMaj (x y z : Nat) : Nat := (x &&& y) ^^^ (x &&& z) ^^^ (y &&& z)

/-- SHA-256 small sigma 0. -/
def smallSigma0 (x : Nat) : Nat := (rotr32 7 x) ^^^ (rotr32 18 x) ^^^ (x >>> 3)

/-- SHA-256 small sigma 1. -/
def smallSigma1 (x : Nat) : Nat := (rotr32 17 x) ^^^ (rotr32 19 x) ^^^ (x >>> 10)

/-- SHA-256 big sigma 0. -/
def bigSigma0 (x : Nat) : Nat := (rotr32 2 x) ^^^ (rotr32 13 x) ^^^ (rotr32 22 x)

/-- SHA-256 big sigma 1. -/
def bigSigma1 (x : Nat) : Nat := (rotr32 6 x) ^^^ (rotr32 11 x) ^^^ (rotr32 25 x)

/-- SHA-256 round constants, written in decimal. -/
def shaK : List Nat :=
  [1116352408, 1899447441, 3049323471, 3921009573,
   961987163, 1508970993, 2453635748, 2870763221,
   3624381080, 310598401, 607225278, 1426881987,
   1925078388, 2162078206, 2614888103, 3248222580,
   3835390401, 4022224774, 264347078, 604807628,
   770255983, 1249150122, 1555081692, 1996064986,
   2554220882, 2821834349, 2952996808, 3210313671,
   3336571891, 3584528711, 113926993, 338241895,
   666307205, 773529912, 1294757372, 1396182291,
   1695183700, 1986661051, 2177026350, 2456956037,
   2730485921, 2820302411, 3259730800, 3345764771,
   3516065817, 3600352804, 4094571909, 275423344,
   430227734, 506948616, 659060556, 883997877,
   958139571, 1322822218, 1537002063, 1747873779,
   1955562222, 2024104815, 2227730452, 2361852424,
   2428436474, 2756734187, 3204031479, 3329325298]

/-- Working state of a SHA-256 compression, eight 32-bit words. -/
structure Sha256State where
  a : Nat
  b : Nat
  c : Nat
  d : Nat
  e : Nat
  f : Nat
  g : Nat
  h : Nat

/-- SHA-256 initial hash value, written in decimal. -/
def shaInit : Sha256State :=
  { a := 1779033703, b := 3144134277, c := 1013904242, d := 2773480762,
    e := 1359893119, f := 2600822924, g := 528734635, h := 1541459225 }

/-- Pack a byte list into big-endian 32-bit words, four bytes per word. -/
def bytesToWords : List Nat → List Nat
  | b0 :: b1 :: b2 :: b3 :: rest =>
    (((b0 * 256 + b1) * 256 + b2) * 256 + b3) :: bytesToWords rest
  | _ => []

/-- Extend a 16-word message schedule by the given number of words. -/
def extendW : Nat → List Nat → List Nat
  | 0, w => w
  | k + 1, w =>
    let n := w.length
    let x := add32 (add32 (smallSigma1 (w.getD (n - 2) 0)) (w.getD (n - 7) 0))
      (add32 (smallSigma0 (w.getD (n - 15) 0)) (w.getD (n - 16) 0))
    extendW k (w ++ [x])

/-- One SHA-256 compression round, consuming a constant and a schedule word. -/
def shaRound (s : Sha256State) (kw : Nat × Nat) : Sha256State :=
  let t1 := add32 s.h (add32 (bigSigma1 s.e) (add32 (shaCh s.e s.f s.g) (add32 kw.1 kw.2)))
  let t2 := add32 (bigSigma0 s.a) (shaMaj s.a s.b s.c)
  { a := add32 t1 t2, b := s.a, c := s.b, d := s.c,
    e := add32 s.d t1, f := s.e, g := s.f, h := s.g }

/-- Process one 64-byte block of the padded message. -/
def processBlock (H : Sha256State) (block : List Nat) : Sha256State :=
  let w := extendW 48 (bytesToWords block)
  let s := (shaK.zip w).foldl shaRound H
  { a := add32 H.a s.a, b := add32 H.b s.b, c := add32 H.c s.c, d := add32 H.d s.d,
    e := add32 H.e s.e, f := add32 H.f s.f, g := add32 H.g s.g, h := add32 H.h s.h }

/-- Big-endian 8-byte encoding of a natural number. -/
def beBytes8 (n : Nat) : List Nat :=
  [(n >>> 56) % 256, (n >>> 48) % 256, (n >>> 40) % 256, (n >>> 32) % 256,
   (n >>> 24) % 256, (n >>> 16) % 256, (n >>> 8) % 256, n % 256]

/-- SHA-256 padding: append 0x80, zeros up to 56 mod 64, and the bit length. -/
def sha256Pad (msg : List Nat) : List Nat :=
  let L := msg.length
  let k := (120 - ((L + 1) % 64)) % 64
  msg ++ (128 :: List.replicate k 0) ++ beBytes8 (L * 8)

/-- Cut a padded message into 64-byte blocks. -/
def toBlocks : List Nat → List (List Nat)
  | [] => []
  | b :: rest => (b :: rest.take 63) :: toBlocks (rest.drop 63)
termination_by l => l.length
decreasing_by
  simp only [List.length_drop, List.length_cons]
  omega

/-- SHA-256 of a byte sequence, as the final eight-word state. -/
def sha256Words (msg : List Nat) : Sha256State :=
  (toBlocks (sha256Pad msg)).foldl processBlock shaInit

/-- The sixteen lowercase hexadecimal digit characters. -/
def hexChars : List Char := ("0123456789abcdef".toList)

/-- Hexadecimal digit character of n mod 16. -/
def hexDigit (n : Nat) : Char := hexChars.getD (n % 16) '0'

/-- Eight-digit big-endian hexadecimal rendering of a 32-bit word. -/
def wordToHex (w : Nat) : List Char :=
  [hexDigit (w >>> 28), hexDigit (w >>> 24), hexDigit (w >>> 20), hexDigit (w >>> 16),
   hexDigit (w >>> 12), hexDigit (w >>> 8), hexDigit (w >>> 4), hexDigit w]

/-- SHA-256 hexdigest of a byte sequence: 64 lowercase hex characters. -/
def sha256hex (msg : List Nat) : List Char :=
  let s := sha256Words msg
  wordToHex s.a ++ wordToHex s.b ++ wordToHex s.c ++ wordToHex s.d ++
    wordToHex s.e ++ wordToHex s.f ++ wordToHex s.g ++ wordToHex s.h

/-- UTF-8 encoding of one Unicode code point as bytes. -/
def utf8Char (n : Nat) : List Nat :=
  if n < 128 then [n]
  else if n < 2048 then [192 ||| (n >>> 6), 128 ||| (n &&& 63)]
  else if n < 65536 then
    [224 ||| (n >>> 12), 128 ||| ((n >>> 6) &&& 63), 128 ||| (n &&& 63)]
  else
    [240 ||| (n >>> 18), 128 ||| ((n >>> 12) &&& 63), 128 ||| ((n >>> 6) &&& 63),
     128 ||| (n &&& 63)]

/-- UTF-8 encoding of a text (Python text.encode applied in hash_text). -/
def utf8Encode (text : List Char) : List Nat :=
  text.flatMap (fun c => utf8Char c.toNat)

/-- hash_text of scripts/ingest.py: first 16 hex characters of the
SHA-256 hexdigest of the UTF-8 encoding of the text. hashlib is
standard-library code not under src/; SHA-256 is embedded above
following the standard. -/
def hash_text (text : List Char) : List Char :=
  (sha256hex (utf8Encode text)).take 16

/-- A file path as build_items sees it: its final component name and
its full string rendering. -/
structure PathModel where
  name : List Char
  full : List Char

/-- An IndexedItem as built by build_items: the tuple of id, chunk text
and metadata fields source, chunk_id and text. -/
structure Item where
  id : List Char
  text : List Char
  metaSource : List Char
  metaChunkId : Nat
  metaText : List Char

/-- The item built for one chunk at a given index: id is
name-index-hash as in the f-string of build_items. -/
def mkItem (fp : PathModel) (idx : Nat) (chunk : List Char) : Item :=
  { id := fp.name ++ ('-' :: (Nat.repr idx).toList) ++ ('-' :: hash_text chunk),
    text := chunk,
    metaSource := fp.full,
    metaChunkId := idx,
    metaText := chunk }

/-- build_items of scripts/ingest.py, with the enumerate index made
explicit: one item per chunk, indices counting up from idx. -/
def build_items_from (fp : PathModel) (idx : Nat) : List (List Char) → List Item
  | [] => []
  | chunk :: rest => mkItem fp idx chunk :: build_items_from fp (idx + 1) rest

/-- build_items of scripts/ingest.py: enumerate the chunks from 0. -/
def build_items (fp : PathModel) (chunks : List (List Char)) : List Item :=
  build_items_from fp 0 chunks

/-- Concrete path used by the witness of the hashing claim. -/
def sampleFile : PathModel :=
  { name := ("notes.txt".toList), full := ("docs/notes.txt".toList) }

/-- The apostrophe character, used inside some greeting phrases. -/
def apos : Char := Char.ofNat 39

/-- The fixed greeting and closing phrases of _is_general_conversation
in backend/rag/chain.py. -/
def greetings : List (List Char) :=
  [("hi".toList), ("hello".toList), ("hey".toList), ("good morning".toList),
   ("good afternoon".toList), ("good evening".toList), ("how are you".toList),
   (("how".toList) ++ apos :: ("s it going".toList)),
   (("what".toList) ++ apos :: ("s up".toList)),
   ("how do you do".toList), ("thanks".toList), ("thank you".toList),
   ("bye".toList), ("goodbye".toList), ("see you later".toList),
   ("nice to meet you".toList), ("pleasure to meet you".toList)]

/-- The filler words tested by substring containment in
_is_general_conversation. -/
def fillerWords : List (List Char) :=
  [("hi".toList), ("hello".toList), ("hey".toList), ("ok".toList),
   ("yes".toList), ("no".toList)]

/-- _is_general_conversation of backend/rag/chain.py: the lowered and
stripped message is matched exactly against the greeting phrases, or
the message has at most 2 whitespace-delimited tokens and some filler
word occurs in the lowered stripped message as a substring. -/
def is_general_conversation (message : List Char) : Bool :=
  let message_lower := strip (message.map pyToLower)
  if message_lower ∈ greetings then true
  else if (splitWs message).length ≤ 2 ∧
      fillerWords.any (fun w => containsSub w message_lower) = true then true
  else false

/-- The classifier contract as the spec states it: case-insensitively
on the trimmed message, either an exact match against the greeting
phrases, or at most 2 whitespace-delimited tokens together with a
filler word contained in it. -/
def isGeneralConversationSpec (message : List Char) : Prop :=
  strip (message.map pyToLower) ∈ greetings ∨
    ((splitWs (strip (message.map pyToLower))).length ≤ 2 ∧
      ∃ w ∈ fillerWords, containsSub w (strip (message.map pyToLower)) = true)

/-- SYSTEM_PROMPT of backend/rag/chain.py, the fixed system instruction. -/
def SYSTEM_PROMPT : List Char :=
  ("You are a helpful AI assistant that can answer questions about uploaded documents and engage in general conversation. When you have relevant document context provided, use it to give accurate, detailed answers. When no relevant context is available, you can still help with general questions using your knowledge. Always be friendly, helpful, and conversational. If you reference information from the provided documents, mention that it".toList)
    ++ apos :: ("s from the uploaded content.".toList)

/-- Metadata of a retrieved match; every field may be absent, as in the
Python dict. -/
structure DocMeta where
  source : Option (List Char)
  text : Option (List Char)
  content : Option (List Char)

/-- A retrieved match as the vector store returns it: id, relevance
score (a machine float, embedded as a rational) and metadata. -/
structure Doc where
  id : Option (List Char)
  score : Option Rat
  metadata : DocMeta

/-- A chat message or history turn: role and content. -/
structure Msg where
  role : List Char
  content : List Char

/-- One citation of the ChatResult: the projection of a retrieved
match to id, score and metadata source. -/
structure Citation where
  id : Option (List Char)
  score : Option Rat
  source : Option (List Char)

/-- The observable outcome of RAGChain.invoke: whether the vector
store was queried, the user content sent to the chat model, the full
message sequence sent, and the citations returned. -/
structure InvokeResult where
  queried : Bool
  user_content : List Char
  messages : List Msg
  citations : List Citation

/-- Python expression a or b for optional strings: the first operand
when present and nonempty, otherwise b. -/
def pyOrStr (a : Option (List Char)) (b : List Char) : List Char :=
  match a with
  | some s => if s.isEmpty then b else s
  | none => b

/-- _build_context of backend/rag/chain.py: for each retrieved match a
Source header line, the snippet (metadata text, else content, else
empty) and a blank line, all joined with newlines. -/
def build_context (docs : List Doc) : List Char :=
  List.intercalate ("\n".toList)
    (docs.flatMap (fun d =>
      [("Source: ".toList) ++ d.metadata.source.getD ("unknown".toList),
       pyOrStr d.metadata.text (pyOrStr d.metadata.content []),
       []]))

/-- The user content built by invoke when relevant context is used:
the assembled context followed by the question. -/
def context_prompt (context_text message : List Char) : List Char :=
  ("Here".toList) ++ apos ::
    ("s some relevant information from uploaded documents:\n\n".toList)
    ++ context_text
    ++ ("\n\nNow, please answer this question: ".toList) ++ message

/-- The user content built by invoke when no relevant context was
found: the question plus the explicit fallback note. -/
def fallback_prompt (message : List Char) : List Char :=
  ("Question: ".toList) ++ message
    ++ ("\n\n(Note: No relevant document context was found for this query, so please answer using your general knowledge.)".toList)

/-- RAGChain.invoke of backend/rag/chain.py, with the external calls
made explicit: queryResult is what vectorstore.query would return, and
the result records whether that query was issued, the user content,
the message sequence sent to the chat model and the citations. -/
def invoke (message : List Char) (history : List Msg) (queryResult : List Doc) :
    InvokeResult :=
  if is_general_conversation message = true then
    { queried := false,
      user_content := message,
      messages := { role := ("system".toList), content := SYSTEM_PROMPT } ::
        { role := ("user".toList), content := message } :: lastN 3 history,
      citations := [] }
  else
    let retrieved := queryResult
    let context_text := build_context retrieved
    let relevant_docs := retrieved.filter (fun d => decide ((3 : Rat)/10 < d.score.getD 0))
    let user_content :=
      if relevant_docs.isEmpty = false ∧ (strip context_text).isEmpty = false then
        context_prompt context_text message
      else fallback_prompt message
    { queried := true,
      user_content := user_content,
      messages := { role := ("system".toList), content := SYSTEM_PROMPT } ::
        { role := ("user".toList), content := user_content } :: lastN 3 history,
      citations := retrieved.map (fun d =>
        { id := d.id, score := d.score, source := d.metadata.source }) }

/-- A file as file_to_text of scripts/ingest.py sees it: its suffix,
its pages when read as a PDF (extract_text may return nothing for a
page), and its decoded text when read as a text file. -/
structure FileModel where
  suffix : List Char
  pages : List (Option (List Char))
  textContent : List Char

/-- A raised Python error, here only ValueError with its message. -/
inductive PyError where
  | valueError : List Char → PyError

/-- The three supported lowercased suffixes of file_to_text. -/
def supportedSuffixes : List (List Char) :=
  [(".pdf".toList), (".txt".toList), (".md".toList)]

/-- file_to_text of scripts/ingest.py: PDF pages joined with newlines
(empty string for pages with no extractable text), raw decoded text
for txt and md, and a ValueError for any other suffix; the suffix is
compared lowercased. -/
def file_to_text (f : FileModel) : Except PyError (List Char) :=
  if f.suffix.map pyToLower = (".pdf".toList) then
    Except.ok (List.intercalate ("\n".toList) (f.pages.map (fun p => p.getD [])))
  else if f.suffix.map pyToLower = (".txt".toList) ∨ f.suffix.map pyToLower = (".md".toList) then
    Except.ok f.textContent
  else
    Except.error (PyError.valueError (("Unsupported file type: ".toList) ++ f.suffix))

/-- Concrete retrieved match with a low score, used by a witness. -/
def lowDoc : Doc :=
  { id := some ("d1".toList), score := some ((1 : Rat)/5),
    metadata := { source := some ("srcA".toList), text := some ("alpha".toList),
                  content := none } }

/-- Concrete retrieved match with a high score, used by a witness. -/
def highDoc : Doc :=
  { id := some ("d2".toList), score := some ((2 : Rat)/5),
    metadata := { source := some ("srcB".toList), text := some ("beta".toList),
                  content := none } }

theorem flatten_splitOnSepAux (c0 : Char) (sep : List Char) :
    ∀ (n : Nat) (acc l : List Char), l.length ≤ n →
      (splitOnSepAux c0 sep acc l).flatten = acc.reverse ++ l := by
  intro n
  induction n with
  | zero =>
    intro acc l hl
    have hnil : l = [] := List.length_eq_zero.mp (Nat.le_zero.mp hl)
    subst hnil
    simp [splitOnSepAux]
  | succ n ih =>
    intro acc l hl
    match l with
    | [] => simp [splitOnSepAux]
    | c :: cs =>
      rw [splitOnSepAux]
      by_cases hpre : (c0 :: sep).isPrefixOf (c :: cs)
      · rw [if_pos hpre]
        have hp : (c0 :: sep) <+: (c :: cs) := List.isPrefixOf_iff_prefix.mp hpre
        obtain ⟨t, ht⟩ := hp
        have hct : c0 = c ∧ sep ++ t = cs := by simpa using ht
        obtain ⟨hc0, hst⟩ := hct
        subst hc0
        subst hst
        have htlen : t.length ≤ n := by
          have hcsn : (sep ++ t).length ≤ n := by
            simpa using Nat.le_of_succ_le_succ hl
          simp only [List.length_append] at hcsn
          omega
        rw [List.drop_left, List.flatten_cons, ih [] t htlen]
        simp
      · rw [if_neg hpre]
        have : cs.length ≤ n := by simpa using Nat.le_of_succ_le_succ hl
        rw [ih (c :: acc) cs this]
        simp

theorem flatten_chunksOfSize (n : Nat) :
    ∀ (m : Nat) (l : List Char), l.length ≤ m → (chunksOfSize n l).flatten = l := by
  intro m
  induction m with
  | zero =>
    intro l hl
    have hnil : l = [] := List.length_eq_zero.mp (Nat.le_zero.mp hl)
    subst hnil
    simp [chunksOfSize]
  | succ m ih =>
    intro l hl
    match l with
    | [] => simp [chunksOfSize]
    | c :: cs =>
      rw [chunksOfSize]
      have : (cs.drop n).length ≤ m := by
        simp only [List.length_drop]
        have : cs.length ≤ m := by simpa using Nat.le_of_succ_le_succ hl
        omega
      rw [List.flatten_cons, ih (cs.drop n) this]
      simp [List.take_append_drop]

theorem splitPiece_short (seps : List (List Char)) (s : List Char)
    (h : s.length ≤ chunk_size) : splitPiece seps s = [s] := by
  match seps with
  | [] => rw [splitPiece, if_pos h]
  | [] :: _rest => rw [splitPiece, if_pos h]
  | (_c0 :: _sep) :: _rest => rw [splitPiece, if_pos h]

theorem flatten_splitPiece :
    ∀ (seps : List (List Char)) (s : List Char), (splitPiece seps s).flatten = s := by
  intro seps
  induction seps with
  | nil =>
    intro s
    rw [splitPiece]
    by_cases h : s.length ≤ chunk_size
    · rw [if_pos h]; simp
    · rw [if_neg h]
      exact flatten_chunksOfSize _ s.length s (Nat.le_refl _)
  | cons sep rest ih =>
    intro s
    match sep with
    | [] =>
      rw [splitPiece]
      by_cases h : s.length ≤ chunk_size
      · rw [if_pos h]; simp
      · rw [if_neg h]
        exact flatten_chunksOfSize _ s.length s (Nat.le_refl _)
    | c0 :: sep' =>
      rw [splitPiece]
      by_cases h : s.length ≤ chunk_size
      · rw [if_pos h]; simp
      · rw [if_neg h]
        have hpieces : (splitOnSepAux c0 sep' [] s).flatten = s := by
          have := flatten_splitOnSepAux c0 sep' s.length [] s (Nat.le_refl _)
          simpa using this
        have hjoin : ∀ ps : List (List Char),
            (ps.flatMap (splitPiece rest)).flatten = ps.flatten := by
          intro ps
          induction ps with
          | nil => simp
          | cons p ps ihp =>
            simp only [List.flatMap_cons, List.flatten_append, ihp, List.flatten_cons]
            rw [ih p]
        rw [hjoin, hpieces]

theorem removeOverlapsAux_stitchAux (ps : List (List Char)) :
    ∀ prev, removeOverlapsAux prev (stitchAux prev ps) = ps := by
  induction ps with
  | nil => intro prev; simp [stitchAux, removeOverlapsAux]
  | cons p ps ih =>
    intro prev
    rw [stitchAux, removeOverlapsAux]
    have hlen : (lastN chunk_overlap prev).length = min chunk_overlap prev.length := by
      simp only [lastN, List.length_drop]
      omega
    rw [← hlen, List.drop_left, ih]

theorem removeOverlaps_stitch (ps : List (List Char)) :
    removeOverlaps (stitch ps) = ps := by
  match ps with
  | [] => rfl
  | p :: ps => rw [stitch, removeOverlaps, removeOverlapsAux_stitchAux]

/-- Claim C1: for every input text, concatenating the chunks returned by
the Chunker after removing from each chunk but the first the overlap it
received (never more than the declared 150 characters) reconstructs the
original text: no characters are dropped and none duplicated beyond the
declared overlap. -/
theorem chunk_text_reconstruction (text : List Char) :
    (removeOverlaps (chunk_text text)).flatten = text := by
  rw [chunk_text]
  by_cases h : text.isEmpty
  · rw [if_pos h]
    cases text with
    | nil => rfl
    | cons c cs => simp [List.isEmpty] at h
  · rw [if_neg h, removeOverlaps_stitch, flatten_splitPiece]

/-- Claim C2: splitting the empty text yields the empty sequence of
chunks, and every nonempty text of length at most the target size 1200
yields exactly one chunk equal to the input, with no overlap applied. -/
theorem chunk_text_empty_and_short :
    chunk_text [] = [] ∧
    ∀ text : List Char, text ≠ [] → text.length ≤ 1200 → chunk_text text = [text] := by
  constructor
  · rfl
  · intro text hne hlen
    rw [chunk_text, if_neg (by simpa [List.isEmpty_iff] using hne)]
    rw [splitPiece_short separators text hlen]
    rfl

/-- Witness for C2 at the concrete text abc. -/
theorem chunk_text_empty_and_short_witness :
    ("abc".toList ≠ ([] : List Char)) ∧ ("abc".toList.length ≤ 1200) ∧
      chunk_text ("abc".toList) = [("abc".toList)] :=
  ⟨by decide, by decide,
    chunk_text_empty_and_short.2 ("abc".toList) (by decide) (by decide)⟩

theorem hexDigit_mem (n : Nat) : hexDigit n ∈ hexChars := by
  have h : n % 16 < 16 := Nat.mod_lt n (by decide)
  unfold hexDigit
  generalize n % 16 = m at h ⊢
  interval_cases m <;> decide

theorem mem_wordToHex (c : Char) (w : Nat) (hc : c ∈ wordToHex w) : c ∈ hexChars := by
  simp only [wordToHex, List.mem_cons, List.not_mem_nil, or_false] at hc
  rcases hc with rfl | rfl | rfl | rfl | rfl | rfl | rfl | rfl <;> exact hexDigit_mem _

theorem length_sha256hex (msg : List Nat) : (sha256hex msg).length = 64 := by
  simp [sha256hex, wordToHex]

theorem mem_sha256hex (c : Char) (msg : List Nat) (hc : c ∈ sha256hex msg) :
    c ∈ hexChars := by
  simp only [sha256hex, List.mem_append] at hc
  rcases hc with ((((((h | h) | h) | h) | h) | h) | h) | h <;> exact mem_wordToHex c _ h

theorem build_items_from_get (fp : PathModel) :
    ∀ (chunks : List (List Char)) (start i : Nat),
      (build_items_from fp start chunks)[i]? =
        (chunks[i]?).map (fun ch => mkItem fp (start + i) ch) := by
  intro chunks
  induction chunks with
  | nil => intro start i; simp [build_items_from]
  | cons ch rest ih =>
    intro start i
    match i with
    | 0 => simp [build_items_from]
    | i + 1 =>
      simp only [build_items_from, List.getElem?_cons_succ]
      rw [ih]
      have harith : start + 1 + i = start + (i + 1) := by omega
      rw [harith]

/-- Claim C3: hash_text is a deterministic digest of 16 hexadecimal
characters, and each item id built from a file and its chunks equals
name-index-hash of the chunk text, so re-ingesting unchanged content
produces identical ids. -/
theorem hash_text_and_item_ids :
    (∀ t : List Char, (hash_text t).length = 16) ∧
    (∀ t : List Char, ∀ c ∈ hash_text t, c ∈ hexChars) ∧
    (∀ t₁ t₂ : List Char, t₁ = t₂ → hash_text t₁ = hash_text t₂) ∧
    (∀ (fp : PathModel) (chunks : List (List Char)) (i : Nat) (ch : List Char),
      chunks[i]? = some ch →
      ((build_items fp chunks)[i]?).map Item.id =
        some (fp.name ++ ('-' :: (Nat.repr i).toList) ++ ('-' :: hash_text ch))) := by
  refine ⟨?_, ?_, ?_, ?_⟩
  · intro t
    simp [hash_text, List.length_take, length_sha256hex]
  · intro t c hc
    have hsub : hash_text t ⊆ sha256hex (utf8Encode t) := by
      simp only [hash_text]
      exact List.take_subset 16 _
    exact mem_sha256hex c _ (hsub hc)
  · intro t₁ t₂ h
    rw [h]
  · intro fp chunks i ch hch
    rw [build_items, build_items_from_get fp chunks 0 i, hch]
    simp [mkItem]

/-- Witness for C3 at a concrete one-chunk file. -/
theorem hash_text_and_item_ids_witness :
    (([("a".toList)] : List (List Char))[0]? = some ("a".toList)) ∧
    ((build_items sampleFile [("a".toList)])[0]?).map Item.id =
      some (sampleFile.name ++ ('-' :: (Nat.repr 0).toList) ++
        ('-' :: hash_text ("a".toList))) ∧
    hash_text ("a".toList) = hash_text ("a".toList) :=
  ⟨by rfl,
   hash_text_and_item_ids.2.2.2 sampleFile [("a".toList)] 0 ("a".toList) (by rfl),
   hash_text_and_item_ids.2.2.1 ("a".toList) ("a".toList) rfl⟩

theorem isSpace_eq_false_of_printable (d : Char) (hd : 33 ≤ d.toNat) :
    isSpace d = false := by
  unfold isSpace
  simp only [Bool.or_eq_false_iff, decide_eq_false_iff_not]
  omega

theorem isSpace_pyToLower (c : Char) : isSpace (pyToLower c) = isSpace c := by
  unfold pyToLower
  split_ifs with h
  · have hv : (c.toNat + 32).isValidChar := Or.inl (by omega)
    have ht : (Char.ofNat (c.toNat + 32)).toNat = c.toNat + 32 := by
      rw [Char.ofNat, dif_pos hv]
      rfl
    have h33 : 33 ≤ (Char.ofNat (c.toNat + 32)).toNat := by
      rw [ht]
      omega
    rw [isSpace_eq_false_of_printable _ h33,
      isSpace_eq_false_of_printable c (by omega)]
  · rfl

theorem splitWsAux_all_space :
    ∀ l : List Char, (∀ c ∈ l, isSpace c = true) → ∀ acc,
      splitWsAux acc l = if acc.isEmpty then [] else [acc.reverse] := by
  intro l
  induction l with
  | nil => intro _ acc; rfl
  | cons c cs ih =>
    intro hsp acc
    have hc : isSpace c = true := hsp c (List.mem_cons_self c cs)
    have hcs : ∀ x ∈ cs, isSpace x = true := fun x hx => hsp x (List.mem_cons_of_mem c hx)
    rw [splitWsAux, if_pos hc]
    by_cases ha : acc.isEmpty
    · rw [if_pos ha, ih hcs []]
      simp [ha]
    · rw [if_neg ha, ih hcs []]
      simp [ha]

theorem splitWsAux_append_space (l₂ : List Char) (hsp : ∀ c ∈ l₂, isSpace c = true) :
    ∀ (l₁ acc : List Char), splitWsAux acc (l₁ ++ l₂) = splitWsAux acc l₁ := by
  intro l₁
  induction l₁ with
  | nil =>
    intro acc
    rw [List.nil_append, splitWsAux_all_space l₂ hsp acc, splitWsAux]
  | cons c cs ih =>
    intro acc
    rw [List.cons_append, splitWsAux, splitWsAux]
    by_cases hc : isSpace c
    · rw [if_pos hc, if_pos hc]
      by_cases ha : acc.isEmpty
      · rw [if_pos ha, if_pos ha, ih []]
      · rw [if_neg ha, if_neg ha, ih []]
    · rw [if_neg hc, if_neg hc, ih (c :: acc)]

theorem splitWsAux_dropWhile (l : List Char) :
    splitWsAux [] (l.dropWhile isSpace) = splitWsAux [] l := by
  induction l with
  | nil => rfl
  | cons c cs ih =>
    by_cases hc : isSpace c
    · rw [List.dropWhile_cons_of_pos hc, ih, splitWsAux, if_pos hc]
      rfl
    · rw [List.dropWhile_cons_of_neg hc]

theorem splitWs_strip (l : List Char) : splitWs (strip l) = splitWs l := by
  have h1 : splitWs (l.dropWhile isSpace) = splitWs l := splitWsAux_dropWhile l
  set l₁ := l.dropWhile isSpace with hl₁
  have hdec : (l₁.reverse.takeWhile isSpace) ++ (l₁.reverse.dropWhile isSpace) = l₁.reverse :=
    List.takeWhile_append_dropWhile isSpace l₁.reverse
  have hsplit : l₁ =
      (l₁.reverse.dropWhile isSpace).reverse ++ (l₁.reverse.takeWhile isSpace).reverse := by
    conv_lhs => rw [← List.reverse_reverse l₁, ← hdec]
    rw [List.reverse_append]
  have hsp : ∀ c ∈ (l₁.reverse.takeWhile isSpace).reverse, isSpace c = true := by
    intro c hc
    rw [List.mem_reverse] at hc
    exact List.mem_takeWhile_imp hc
  have hstrip : strip l = (l₁.reverse.dropWhile isSpace).reverse := rfl
  calc splitWs (strip l)
      = splitWsAux [] ((l₁.reverse.dropWhile isSpace).reverse) := by rw [hstrip]; rfl
    _ = splitWsAux []
          ((l₁.reverse.dropWhile isSpace).reverse ++ (l₁.reverse.takeWhile isSpace).reverse) := by
        rw [splitWsAux_append_space _ hsp]
    _ = splitWsAux [] l₁ := by rw [← hsplit]
    _ = splitWs l := h1

theorem length_splitWsAux_map_lower :
    ∀ (l acc : List Char),
      (splitWsAux (acc.map pyToLower) (l.map pyToLower)).length =
        (splitWsAux acc l).length := by
  intro l
  induction l with
  | nil =>
    intro acc
    cases acc <;> simp [splitWsAux]
  | cons c cs ih =>
    intro acc
    by_cases hc : isSpace c
    · cases acc with
      | nil =>
        have h := ih []
        simp only [List.map_nil] at h
        simp [splitWsAux, isSpace_pyToLower, hc, h]
      | cons a as =>
        have h := ih []
        simp only [List.map_nil] at h
        simp [splitWsAux, isSpace_pyToLower, hc, h]
    · have h := ih (c :: acc)
      simp only [List.map_cons] at h
      simp [splitWsAux, isSpace_pyToLower, hc, h]

theorem length_splitWs_lower_strip (message : List Char) :
    (splitWs (strip (message.map pyToLower))).length = (splitWs message).length := by
  rw [splitWs_strip]
  have h := length_splitWsAux_map_lower message []
  simp only [List.map_nil] at h
  exact h

theorem is_general_iff (message : List Char) :
    is_general_conversation message = true ↔
      (strip (message.map pyToLower) ∈ greetings ∨
        ((splitWs message).length ≤ 2 ∧
          ∃ w ∈ fillerWords, containsSub w (strip (message.map pyToLower)) = true)) := by
  unfold is_general_conversation
  dsimp only
  split_ifs with h1 h2
  · exact ⟨fun _ => Or.inl h1, fun _ => rfl⟩
  · refine ⟨fun _ => Or.inr ⟨h2.1, ?_⟩, fun _ => rfl⟩
    exact List.any_eq_true.mp h2.2
  · constructor
    · intro h; exact absurd h (by simp)
    · rintro (h | ⟨hlen, hex⟩)
      · exact absurd h h1
      · exact absurd ⟨hlen, List.any_eq_true.mpr hex⟩ h2

/-- Claim C4: the classifier returns true exactly when, on the lowered
trimmed message, either an exact greeting phrase matches or the message
has at most 2 whitespace tokens and contains a filler word; hello is
classified general and the long contract question is not. -/
theorem is_general_conversation_correct :
    (∀ message : List Char,
      is_general_conversation message = true ↔ isGeneralConversationSpec message) ∧
    is_general_conversation ("hello".toList) = true ∧
    is_general_conversation
      ("What does section 3 of the contract say about termination?".toList) = false := by
  refine ⟨?_, by decide, by decide⟩
  intro message
  rw [is_general_iff, isGeneralConversationSpec, length_splitWs_lower_strip]

theorem invoke_general_eq (message : List Char) (history : List Msg) (docs : List Doc)
    (hgen : is_general_conversation message = true) :
    invoke message history docs =
      { queried := false,
        user_content := message,
        messages := { role := ("system".toList), content := SYSTEM_PROMPT } ::
          { role := ("user".toList), content := message } :: lastN 3 history,
        citations := [] } := by
  unfold invoke
  rw [hgen, if_pos rfl]

theorem invoke_not_general (message : List Char) (history : List Msg) (docs : List Doc)
    (hgen : is_general_conversation message = false) :
    invoke message history docs =
      { queried := true,
        user_content :=
          if (docs.filter (fun d => decide ((3 : Rat)/10 < d.score.getD 0))).isEmpty = false ∧
              (strip (build_context docs)).isEmpty = false then
            context_prompt (build_context docs) message
          else fallback_prompt message,
        messages := { role := ("system".toList), content := SYSTEM_PROMPT } ::
          { role := ("user".toList),
            content :=
              if (docs.filter (fun d => decide ((3 : Rat)/10 < d.score.getD 0))).isEmpty = false ∧
                  (strip (build_context docs)).isEmpty = false then
                context_prompt (build_context docs) message
              else fallback_prompt message } :: lastN 3 history,
        citations := docs.map (fun d =>
          { id := d.id, score := d.score, source := d.metadata.source }) } := by
  unfold invoke
  rw [hgen, if_neg Bool.false_ne_true]

/-- Claim C5: in the query pipeline only matches scoring strictly above
0.3 justify using context; with no such match the user prompt is the
fallback note prompt, and with at least one such match and a non-blank
assembled context the user prompt is the context followed by the
question. -/
theorem invoke_threshold (message : List Char) (history : List Msg) (docs : List Doc)
    (hgen : is_general_conversation message = false) :
    ((∀ d ∈ docs, d.score.getD 0 ≤ (3 : Rat)/10) →
      (invoke message history docs).user_content = fallback_prompt message) ∧
    ((∃ d ∈ docs, (3 : Rat)/10 < d.score.getD 0) →
      strip (build_context docs) ≠ [] →
      (invoke message history docs).user_content =
        context_prompt (build_context docs) message) := by
  rw [invoke_not_general message history docs hgen]
  constructor
  · intro hle
    have hnil : docs.filter (fun d => decide ((3 : Rat)/10 < d.score.getD 0)) = [] :=
      List.filter_eq_nil_iff.mpr (fun a ha => by
        simp only [decide_eq_true_eq, not_lt]
        exact hle a ha)
    simp [hnil]
  · intro hex hctx
    obtain ⟨d, hd, hlt⟩ := hex
    have hmem : d ∈ docs.filter (fun d => decide ((3 : Rat)/10 < d.score.getD 0)) :=
      List.mem_filter.mpr ⟨hd, by simpa using hlt⟩
    have h1 : (docs.filter (fun d => decide ((3 : Rat)/10 < d.score.getD 0))).isEmpty = false :=
      List.isEmpty_eq_false.mpr (List.ne_nil_of_mem hmem)
    have h2 : (strip (build_context docs)).isEmpty = false :=
      List.isEmpty_eq_false.mpr hctx
    simp [h1, h2]

unseal Rat.mul Rat.inv in
/-- Witness for C5: a non-general query against one low-scoring match
falls back, and against one high-scoring match uses the context. -/
theorem invoke_threshold_witness :
    is_general_conversation ("summarize the contract terms".toList) = false ∧
    (invoke ("summarize the contract terms".toList) [] [lowDoc]).user_content =
      fallback_prompt ("summarize the contract terms".toList) ∧
    (invoke ("summarize the contract terms".toList) [] [highDoc]).user_content =
      context_prompt (build_context [highDoc]) ("summarize the contract terms".toList) :=
  ⟨by decide,
   (invoke_threshold ("summarize the contract terms".toList) [] [lowDoc] (by decide)).1
     (by decide),
   (invoke_threshold ("summarize the contract terms".toList) [] [highDoc] (by decide)).2
     (by decide) (by decide)⟩

/-- Claim C6: a message classified as general conversation skips
retrieval entirely: no vector store query is issued, the user content
sent to the chat model is the raw message, and citations are empty. -/
theorem invoke_skips_retrieval_on_general (message : List Char) (history : List Msg)
    (docs : List Doc) (hgen : is_general_conversation message = true) :
    (invoke message history docs).queried = false ∧
    (invoke message history docs).user_content = message ∧
    (invoke message history docs).citations = [] := by
  rw [invoke_general_eq message history docs hgen]
  exact ⟨rfl, rfl, rfl⟩

/-- Witness for C6 at the message hi with a populated store. -/
theorem invoke_skips_retrieval_on_general_witness :
    is_general_conversation ("hi".toList) = true ∧
    (invoke ("hi".toList) [] [highDoc]).queried = false ∧
    (invoke ("hi".toList) [] [highDoc]).user_content = ("hi".toList) ∧
    (invoke ("hi".toList) [] [highDoc]).citations = [] :=
  ⟨by decide,
   (invoke_skips_retrieval_on_general ("hi".toList) [] [highDoc] (by decide)).1,
   (invoke_skips_retrieval_on_general ("hi".toList) [] [highDoc] (by decide)).2.1,
   (invoke_skips_retrieval_on_general ("hi".toList) [] [highDoc] (by decide)).2.2⟩

/-- Claim C7: for every query that goes through retrieval the
citations are exactly the projection of the originally retrieved
matches to id, score and source, in retrieval order, regardless of
whether the context was used. -/
theorem invoke_citations_projection (message : List Char) (history : List Msg)
    (docs : List Doc) (hgen : is_general_conversation message = false) :
    (invoke message history docs).queried = true ∧
    (invoke message history docs).citations =
      docs.map (fun d => { id := d.id, score := d.score, source := d.metadata.source }) := by
  rw [invoke_not_general message history docs hgen]
  exact ⟨rfl, rfl⟩

/-- Witness for C7: a non-general query over a low-scoring match still
reports that match as its only citation. -/
theorem invoke_citations_projection_witness :
    is_general_conversation ("list the contract deadlines".toList) = false ∧
    (invoke ("list the contract deadlines".toList) [] [lowDoc]).citations =
      [{ id := lowDoc.id, score := lowDoc.score, source := lowDoc.metadata.source }] :=
  ⟨by decide,
   (invoke_citations_projection ("list the contract deadlines".toList) [] [lowDoc]
     (by decide)).2⟩

/-- Claim C8: the message sequence sent to the chat model is the fixed
system instruction, then one user message, then at most the last 3
history turns verbatim in their original order; older turns are
dropped. -/
theorem invoke_message_window (message : List Char) (history : List Msg)
    (docs : List Doc) :
    (invoke message history docs).messages.take 2 =
      [{ role := ("system".toList), content := SYSTEM_PROMPT },
       { role := ("user".toList), content := (invoke message history docs).user_content }] ∧
    (invoke message history docs).messages.drop 2 <:+ history ∧
    ((invoke message history docs).messages.drop 2).length = min 3 history.length ∧
    (invoke message history docs).messages.length = 2 + min 3 history.length := by
  rcases Bool.eq_false_or_eq_true (is_general_conversation message) with hgen | hgen
  · rw [invoke_general_eq message history docs hgen]
    refine ⟨rfl, ?_, ?_, ?_⟩
    · show lastN 3 history <:+ history
      exact List.drop_suffix _ _
    · show (lastN 3 history).length = min 3 history.length
      simp only [lastN, List.length_drop]
      omega
    · show (lastN 3 history).length + 1 + 1 = 2 + min 3 history.length
      simp only [lastN, List.length_drop]
      omega
  · rw [invoke_not_general message history docs hgen]
    refine ⟨rfl, ?_, ?_, ?_⟩
    · show lastN 3 history <:+ history
      exact List.drop_suffix _ _
    · show (lastN 3 history).length = min 3 history.length
      simp only [lastN, List.length_drop]
      omega
    · show (lastN 3 history).length + 1 + 1 = 2 + min 3 history.length
      simp only [lastN, List.length_drop]
      omega

/-- Claim C9: file_to_text fails with the unsupported-format ValueError
exactly when the lowercased extension is none of .pdf, .txt and .md;
for supported extensions it returns text and raises no error. -/
theorem file_to_text_unsupported (f : FileModel) :
    (∃ e, file_to_text f = Except.error e) ↔
      f.suffix.map pyToLower ∉ supportedSuffixes := by
  unfold file_to_text supportedSuffixes
  split_ifs with h1 h2
  · simp [h1]
  · rcases h2 with h2 | h2 <;> simp [h2]
  · constructor
    · intro _
      simp only [List.mem_cons, List.not_mem_nil, or_false]
      push_neg
      exact ⟨h1, fun h => h2 (Or.inl h), fun h => h2 (Or.inr h)⟩
    · intro _
      exact ⟨_, rfl⟩

/-- Witness for C9: a .docx file fails with the error, an uppercase
.TXT file does not. -/
theorem file_to_text_unsupported_witness :
    ((".docx".toList).map pyToLower ∉ supportedSuffixes) ∧
    (∃ e, file_to_text
      { suffix := (".docx".toList), pages := [], textContent := [] } =
        Except.error e) ∧
    ¬(∃ e, file_to_text
      { suffix := (".TXT".toList), pages := [], textContent := ("ab".toList) } =
        Except.error e) :=
  ⟨by decide,
   (file_to_text_unsupported _).mpr (by decide),
   fun h => (file_to_text_unsupported _).mp h (by decide)⟩

/-- Claim C10: the filler-word test is substring containment on the
lowered message, not whole-token matching: every message with at most
2 whitespace-delimited tokens whose lowered trimmed text contains a
filler word anywhere is classified as general conversation, and
retrieval is skipped for it. -/
theorem filler_substring_classification (message : List Char)
    (hlen : (splitWs message).length ≤ 2)
    (hsub : ∃ w ∈ fillerWords, containsSub w (strip (message.map pyToLower)) = true) :
    is_general_conversation message = true ∧
    ∀ (history : List Msg) (docs : List Doc),
      (invoke message history docs).queried = false ∧
      (invoke message history docs).citations = [] := by
  have hg : is_general_conversation message = true := by
    rw [is_general_iff]
    exact Or.inr ⟨hlen, hsub⟩
  refine ⟨hg, fun history docs => ?_⟩
  rw [invoke_general_eq message history docs hg]
  exact ⟨rfl, rfl⟩

/-- Witness for C10 at the messages which one? and broken link, which
contain hi and ok inside words. -/
theorem filler_substring_classification_witness :
    ((splitWs ("which one?".toList)).length ≤ 2) ∧
    (containsSub ("hi".toList) (strip (("which one?".toList).map pyToLower)) = true) ∧
    is_general_conversation ("which one?".toList) = true ∧
    is_general_conversation ("broken link".toList) = true :=
  ⟨by decide, by decide,
   (filler_substring_classification ("which one?".toList) (by decide)
     ⟨("hi".toList), by decide, by decide⟩).1,
   (filler_substring_classification ("broken link".toList) (by decide)
     ⟨("ok".toList), by decide, by decide⟩).1⟩
